import Mathlib

/-!
Shallow embedding of the rust-crdt repository: the vector clock
(src/vclock.rs) and the LSeq sequence CRDT (src/lseq/mod.rs).

The Rust code is generic over an actor type `A : Actor` (any totally ordered,
cloneable, serializable type) and a value type `V : Ord + Clone + ...`.  The
embedding instantiates both at `Nat`, the instance the repository's own tests
use (`VClock<u8>`, `LSeq<char, u64>`); `u64` counters and labels are modelled
as `Nat`, with reductions `% 2^64` exactly where the Rust `u64` arithmetic can
wrap (release-mode semantics; in debug builds the same spots abort).

`BTreeMap<A, C>` is modelled as a strictly-key-sorted association list; the
well-formedness predicate `VClock.WF` states that invariant where a theorem
needs it.  Rust methods taking `&mut self` are modelled as functions returning
the new value; a method that can `panic!` or return `Err` is modelled with
`Except`.
-/

set_option maxRecDepth 8000

/-- Floor base-2 logarithm, fuel-based so that it evaluates inside the kernel
(`log2F n n` peels one unit of fuel per halving; `n` halvings always
suffice). -/
def log2F : Nat → Nat → Nat
  | 0, _ => 0
  | fuel + 1, n => if 2 ≤ n then log2F fuel (n / 2) + 1 else 0

/-- `floor(log2 n)` (`0` at `n = 0`), the value of `(n as f64).log2() as u32`
for exactly-representable inputs. -/
def natLog2 (n : Nat) : Nat := log2F n n

/-- `VClock` (src/vclock.rs): `dots` is the `BTreeMap<A, Counter>` from actors
to their counters, modelled as an association list (sorted, without duplicate
keys, whenever it is built by the operations below). -/
structure VClock where
  dots : List (Nat × Nat)
deriving DecidableEq, Repr

/-- The error type of src/error.rs as used by `witness` (only the
`ConflictingDot` variant is relevant to the embedded code). -/
inductive VCError where
  | conflictingDot
deriving DecidableEq, Repr

/-- `BTreeMap::get`: first (and, on sorted-unique lists, only) binding of a key. -/
def dotsGet : List (Nat × Nat) → Nat → Option Nat
  | [], _ => none
  | (x, v) :: rest, a => if a = x then some v else dotsGet rest a

/-- `BTreeMap::insert`: replace the binding of a key, or insert it in key order. -/
def dotsInsert : List (Nat × Nat) → Nat → Nat → List (Nat × Nat)
  | [], a, c => [(a, c)]
  | (x, v) :: rest, a, c =>
    if a < x then (a, c) :: (x, v) :: rest
    else if a = x then (a, c) :: rest
    else (x, v) :: dotsInsert rest a c

/-- `VClock::new`. -/
def VClock.new : VClock := ⟨[]⟩

/-- `self.dots.get(actor)` as an `Option`. -/
def VClock.getOpt (vc : VClock) (a : Nat) : Option Nat :=
  dotsGet vc.dots a

/-- `VClock::get`: the stored counter, `0` when the actor is absent. -/
def VClock.get (vc : VClock) (a : Nat) : Nat :=
  (vc.getOpt a).getD 0

/-- `VClock::contains_descendent_element`: the actor is present and its stored
counter is `>= counter` (`unwrap_or(false)` for an absent actor). -/
def VClock.contains_descendent_element (vc : VClock) (a : Nat) (c : Nat) : Bool :=
  match vc.getOpt a with
  | some v => c ≤ v
  | none => false

/-- `VClock::witness`: store the counter unless the clock already contains a
descendent element for this actor, in which case `Err(ConflictingDot)` is
returned and `self.dots` is left untouched. -/
def VClock.witness (vc : VClock) (a : Nat) (c : Nat) : Except VCError VClock :=
  if vc.contains_descendent_element a c then .error .conflictingDot
  else .ok ⟨dotsInsert vc.dots a c⟩

/-- One step of `VClock::merge`: witness a dot, ignoring a failure
(`#[allow(unused_must_use)]` in the source). -/
def VClock.witnessMergeStep (acc : VClock) (d : Nat × Nat) : VClock :=
  match acc.witness d.1 d.2 with
  | .ok acc' => acc'
  | .error _ => acc

/-- `VClock::merge`: witness every dot of `other`, ignoring failures. -/
def VClock.merge (vc other : VClock) : VClock :=
  other.dots.foldl VClock.witnessMergeStep vc

/-- `VClock::is_empty`. -/
def VClock.is_empty (vc : VClock) : Bool :=
  vc.dots.isEmpty

/-- `PartialOrd::partial_cmp for VClock` (the Lean name drops the substring
`partial`): `Equal` when the structures (hence the dot maps) coincide, else
`Greater`/`Less` when every dot of one side is a descendent element of the
other, else `None`. -/
def VClock.partCmp (a b : VClock) : Option Ordering :=
  if a = b then some .eq
  else if b.dots.all (fun d => a.contains_descendent_element d.1 d.2) then some .gt
  else if a.dots.all (fun d => b.contains_descendent_element d.1 d.2) then some .lt
  else none

/-- `VClock::increment`: bump the actor's counter and return it. -/
def VClock.increment (vc : VClock) (a : Nat) : Nat × VClock :=
  let next := vc.get a + 1
  (next, ⟨dotsInsert vc.dots a next⟩)

/-- The `BTreeMap` invariant: keys strictly increasing (hence no duplicates). -/
def VClock.WF (vc : VClock) : Prop :=
  vc.dots.Pairwise (fun d e => d.1 < e.1)

instance (vc : VClock) : Decidable vc.WF := by
  unfold VClock.WF; infer_instance

/-! ## The LSeq allocation tree (src/lseq/mod.rs and its `nodes` module)

The repository's `lseq/nodes.rs` (types `Identifier`, `Atom`, `Siblings`) is
not among the provided sources; its data shapes and operations are modelled
from the spec (sections 3, 4.2, 4.3) and from how src/lseq/mod.rs uses them.
-/

/-- Modelled from the spec: an `Identifier` is an ordered sequence of unsigned
integer labels, one per tree depth, root first (spec section 4.2; the
`nodes.rs` source is absent). -/
abbrev Identifier := List Nat

/-- Modelled from the spec: `Identifier::at(depth)`, valid for
`depth < length` (total here, returning 0 out of range; every caller in
src/lseq/mod.rs that can reach the out-of-range case aborts anyway). -/
def idAt (id : Identifier) (depth : Nat) : Nat :=
  id.getD depth 0

mutual
/-- Modelled from the spec: the tree entry (spec section 3 `Atom`): a `Leaf`
value, or a `Node` carrying a value plus a child level; each sibling entry in
a level carries `(label, causal stamp, atom)`, the level being an ordered
(label-sorted) table — `Siblings` wraps `BTreeMap<u64, (VClock, Atom)>`. -/
inductive Atom : Type where
  | leaf : Nat → Atom
  | node : Nat → Siblings → Atom
inductive Siblings : Type where
  | nil : Siblings
  | cons : Nat → VClock → Atom → Siblings → Siblings
end

/-- `BTreeMap::get` on a tree level. -/
def sibsGet : Siblings → Nat → Option (VClock × Atom)
  | .nil, _ => none
  | .cons x c a rest, k => if k = x then some (c, a) else sibsGet rest k

/-- `BTreeMap::insert` on a tree level (replace at an existing key, else
insert in key order). -/
def sibsInsert : Siblings → Nat → VClock → Atom → Siblings
  | .nil, k, c, a => .cons k c a .nil
  | .cons x cv av rest, k, c, a =>
    if k < x then .cons k c a (.cons x cv av rest)
    else if k = x then .cons k c a rest
    else .cons x cv av (sibsInsert rest k c a)

/-- `BTreeMap::remove` on a tree level. -/
def sibsRemove : Siblings → Nat → Siblings
  | .nil, _ => .nil
  | .cons x cv av rest, k => if k = x then rest else .cons x cv av (sibsRemove rest k)

/-- Modelled from the spec: `Siblings::delete_id` (spec section 4.3): walk the
identifier's labels from the root, descending into each existing `Node`'s
children; at the final label remove the entry from that level's table; an
identifier whose path is absent (or runs through a `Leaf`) deletes nothing
(spec section 7: `Delete` is always admitted, possibly as a no-op). -/
def delete_id : Siblings → Identifier → Siblings
  | sibs, [] => sibs
  | sibs, [l] => sibsRemove sibs l
  | sibs, l :: rest =>
    match sibsGet sibs l with
    | some (c, .node w ch) => sibsInsert sibs l c (.node w (delete_id ch rest))
    | _ => sibs

/-- `const BEGIN_ID: u64 = 0`. -/
def BEGIN_ID : Nat := 0

/-- `2^64`, the modulus of `u64` arithmetic. -/
def U64MOD : Nat := 2 ^ 64

/-- `const END_ID: u64 = std::u64::MAX`. -/
def END_ID : Nat := U64MOD - 1

/-- The `LSeq` aggregate: allocation boundary, root arity, the per-depth
strategy cache (unused by the deterministic strategy actually exercised), and
the depth-1 siblings level. -/
structure LSeq where
  boundary : Nat
  root_arity : Nat
  strategies : List Bool
  tree : Siblings

/-- `LSeq::new` (`DEFAULT_STRATEGY_BOUNDARY = 10`, `DEFAULT_ROOT_BASE = 32`). -/
def LSeq.new : LSeq :=
  { boundary := 10, root_arity := 32, strategies := [true], tree := .nil }

/-- The operations of `enum Op` (`p`/`q` are the optional predecessor and
successor identifiers). -/
inductive Op where
  | insert (clock : VClock) (value : Nat) (p : Option Identifier) (q : Option Identifier)
  | delete (clock : VClock) (id : Identifier)

/-- The process-level aborts of src/lseq/mod.rs, one constructor per `panic!`
site (plus the `rand::gen_range` assertion); the Rust code offers the caller
no typed error on these paths — reaching one of these kills the process. -/
inductive RustPanic where
  | pCannotBeGreaterThanQ    -- find_new_id_depth: "p cannot be greater than q"
  | infiniteLoopStop         -- find_new_id_depth: "Stopped it as it was unexpectedly going into an infinite loop!"
  | numberAlreadyTaken       -- alloc_id: "number was already taken!"
  | needMoreLevels           -- alloc_id: "Do we need to create not only 1 new level but more???"
  | unexpectedWalk           -- alloc_id: "unexpected!!!"
  | genRangeLowGeHigh        -- rand gen_range / u64 subtraction on an empty range
deriving DecidableEq, Repr

/-- `get_deterministic_strategy`: boundary+ (`true`) at even depths,
boundary- (`false`) at odd depths. -/
def get_deterministic_strategy (depth : Nat) : Bool :=
  depth % 2 == 0

/-- `arity_at`: `root_arity * 2^depth`, computed by repeated `u64` doubling
(hence reduced `% 2^64`, the release-mode wrap; unreachable for the depths any
theorem below evaluates). -/
def LSeq.arity_at (L : LSeq) (depth : Nat) : Nat :=
  (L.root_arity * 2 ^ depth) % U64MOD

/-- `num_of_binary_digits!`: `(x as f64).log2().floor() as u32 + 1`.  For
`x = 0` the float pipeline gives `(-inf) as u32 = 0`, hence `1`; for
`0 < x < 2^47` the `f64` computation is exact and equals `natLog2 x + 1`
(above that, `f64` rounding can overshoot by one; no theorem below evaluates
it there with a nonzero accumulated position). -/
def num_of_binary_digits (x : Nat) : Nat :=
  if x = 0 then 1 else natLog2 x + 1

/-- `u64` left shift: the shift amount is masked `% 64` and the result wraps
`% 2^64` (release semantics; a debug build aborts instead of masking). -/
def shl64 (x s : Nat) : Nat :=
  (x * 2 ^ (s % 64)) % U64MOD

/-- One depth step of `find_new_id_depth`'s accumulated position: within the
identifier, shift by the bit length of the stored label and add the label;
past its length, shift by `log2(arity)` and add the virtual position
`arity - 1`. -/
def LSeq.posStep (L : LSeq) (id : Identifier) (d pos : Nat) : Nat :=
  if d < id.length then
    (shl64 pos (num_of_binary_digits (idAt id d)) + idAt id d) % U64MOD
  else
    (shl64 pos (natLog2 (L.arity_at d)) + (L.arity_at d - 1)) % U64MOD

/-- The loop of `find_new_id_depth`, fuel-indexed (the fuel never runs out:
the loop's own guard aborts once the depth passes both identifier lengths,
which happens before the fuel chosen in `LSeq.find_new_id_depth` is spent). -/
def LSeq.findGo (L : LSeq) (p q : Identifier) : Nat → Nat → Nat → Nat → Except RustPanic (Nat × Nat)
  | 0, _, _, _ => .error .infiniteLoopStop
  | fuel + 1, d, ppos, qpos =>
    if d > p.length ∧ d > q.length then .error .infiniteLoopStop
    else
      let pp := L.posStep p d ppos
      let qq := L.posStep q d qpos
      if pp > qq then .error .pCannotBeGreaterThanQ
      else
        let interval := if qq > pp then qq - pp - 1 else 0
        if interval > 0 then .ok (d, interval)
        else L.findGo p q fuel (d + 1) pp qq

/-- `find_new_id_depth`: returns the allocation depth and the interval found
there, or aborts. -/
def LSeq.find_new_id_depth (L : LSeq) (p q : Identifier) : Except RustPanic (Nat × Nat) :=
  L.findGo p q (max p.length q.length + 2) 0 0 0

/-- `rand::thread_rng().gen_range(low, high)`: aborts when `low >= high`,
otherwise draws a value in `[low, high)`.  The ambient generator is modelled
as an injected stream of draws; `low + r % (high - low)` realizes every value
of the range for a suitable head element. -/
def genRange (low high : Nat) (rng : List Nat) : Except RustPanic (Nat × List Nat) :=
  if high ≤ low then .error .genRangeLowGeHigh
  else .ok (low + rng.headD 0 % (high - low), rng.drop 1)

/-- `gen_new_number`: boundary+ draws from `(reference, reference + step]`
with `reference` = p's label at the depth (or `BEGIN_ID` past p's length);
boundary- draws from `[reference - step, reference)` with `reference` = q's
label (or `arity_at(depth) - 1` past q's length).  When `step > reference`
the `u64` subtraction underflows and the process aborts (debug: overflow
check; release: the wrapped bound trips `gen_range`'s `low < high`
assertion). -/
def LSeq.gen_new_number (L : LSeq) (depth : Nat) (strategy : Bool) (step : Nat)
    (p q : Identifier) (rng : List Nat) : Except RustPanic (Nat × List Nat) :=
  if strategy then
    let reference := if depth < p.length then idAt p depth else BEGIN_ID
    genRange (reference + 1) (reference + step + 1) rng
  else
    let reference := if depth < q.length then idAt q depth else L.arity_at depth - 1
    if reference < step then .error .genRangeLowGeHigh
    else genRange (reference - step) reference rng

/-- The tree walk of `alloc_id` from the root down to the allocation depth:
`path` holds the labels of the followed endpoint at the intermediate depths.
At the final depth the new label must be free, else the process aborts
("number was already taken!"); at an intermediate depth a `Leaf` is promoted
to a `Node` with a fresh empty child level before descending, and a missing
entry aborts.  (Rust mutates the tree in place during this walk; the model
rebuilds it functionally — on every abort path the Rust process dies, so no
caller observes the partially mutated tree.) -/
def allocWalk (newNumber : Nat) (clock : VClock) (value : Nat) :
    List Nat → Siblings → Except RustPanic Siblings
  | [], sibs =>
    match sibsGet sibs newNumber with
    | some _ => .error .numberAlreadyTaken
    | none => .ok (sibsInsert sibs newNumber clock (.leaf value))
  | cur :: rest, sibs =>
    match sibsGet sibs cur with
    | none => .error .needMoreLevels
    | some (c, .leaf w) =>
      match allocWalk newNumber clock value rest Siblings.nil with
      | .ok ch' => .ok (sibsInsert sibs cur c (.node w ch'))
      | .error e => .error e
    | some (c, .node w ch) =>
      match allocWalk newNumber clock value rest ch with
      | .ok ch' => .ok (sibsInsert sibs cur c (.node w ch'))
      | .error e => .error e

/-- `alloc_id`: find the allocation depth and interval, clamp the step to the
boundary, pick the strategy by depth parity, draw the new label, and insert it
by walking the followed endpoint's labels (p under boundary+, q under
boundary-). -/
def LSeq.alloc_id (L : LSeq) (p q : Identifier) (clock : VClock) (value : Nat)
    (rng : List Nat) : Except RustPanic (LSeq × List Nat) :=
  match L.find_new_id_depth p q with
  | .error e => .error e
  | .ok (new_id_depth, interval) =>
    let step := min interval L.boundary
    let depth_strategy := get_deterministic_strategy new_id_depth
    match L.gen_new_number new_id_depth depth_strategy step p q rng with
    | .error e => .error e
    | .ok (new_number, rng') =>
      let path := (List.range new_id_depth).map
        (fun d => if depth_strategy then idAt p d else idAt q d)
      match allocWalk new_number clock value path L.tree with
      | .error e => .error e
      | .ok tree' => .ok ({ L with tree := tree' }, rng')

/-- `CmRDT::apply`: an `Insert` with an empty clock returns immediately;
otherwise p defaults to `[BEGIN_ID]`, q to `[END_ID]`, and allocation runs
(drawing from the injected random stream); a `Delete` removes the addressed
entry unconditionally. -/
def LSeq.apply (L : LSeq) (op : Op) (rng : List Nat) : Except RustPanic (LSeq × List Nat) :=
  match op with
  | .insert clock value p q =>
    if clock.is_empty then .ok (L, rng)
    else L.alloc_id (p.getD [BEGIN_ID]) (q.getD [END_ID]) clock value rng
  | .delete _ id => .ok ({ L with tree := delete_id L.tree id }, rng)

/-- `clock()`: fold `merge` over the causal stamps of the entries of
`self.tree.inner()` — the root level only. -/
def clockFold : Siblings → VClock → VClock
  | .nil, acc => acc
  | .cons _ c _ rest, acc => clockFold rest (acc.merge c)

/-- `LSeq::clock`. -/
def LSeq.clock (L : LSeq) : VClock :=
  clockFold L.tree VClock.new

mutual
/-- `flatten_tree`: depth-first, label-ascending traversal; a `Node`'s own
value is emitted before its children when `get_deterministic_strategy` of the
children's depth (`prefix.len() + 1`) is boundary+, after them otherwise. -/
def flattenAtom (id : Nat) (atom : Atom) (pre : Identifier) : List (Identifier × Nat) :=
  match atom with
  | .leaf v => [(pre ++ [id], v)]
  | .node v ch =>
    if get_deterministic_strategy (pre.length + 1) then
      (pre ++ [id], v) :: flattenSibs ch (pre ++ [id])
    else
      flattenSibs ch (pre ++ [id]) ++ [(pre ++ [id], v)]
def flattenSibs (sibs : Siblings) (pre : Identifier) : List (Identifier × Nat) :=
  match sibs with
  | .nil => []
  | .cons id _ atom rest => flattenAtom id atom pre ++ flattenSibs rest pre
end

/-- `LSeq::flatten`. -/
def LSeq.flatten (L : LSeq) : List (Identifier × Nat) :=
  flattenSibs L.tree []

/-! ## Spec-side definitions

The following definitions follow the words of the spec/claims (mixed-radix
positions with radix `arity_at(d)`, the section 4.2 virtual-position order,
the merge of every stored stamp at every depth).  They exist to be compared
with the code-side definitions above. -/

/-- The spec's errors for gap discovery (spec section 4.4 / 7). -/
inductive SpecErr where
  | invalidOrder
  | exhaustedIdentifierSpace
deriving DecidableEq, Repr

/-- The spec's arity at a depth: `root_arity * 2^d` (mathematical, no wrap). -/
def LSeq.specArity (L : LSeq) (d : Nat) : Nat :=
  L.root_arity * 2 ^ d

/-- One depth step of the accumulated position as the claim words it: a
mixed-radix number with radix `arity_at(d)` at depth `d`, a depth beyond the
identifier's length contributing the virtual position `arity_at(d) - 1`. -/
def LSeq.specPosStep (L : LSeq) (id : Identifier) (d pos : Nat) : Nat :=
  if d < id.length then pos * L.specArity d + idAt id d
  else pos * L.specArity d + (L.specArity d - 1)

/-- The claim's gap-discovery loop: form `q_position - p_position - 1` at each
depth, descend on a zero gap, return the first depth with a positive gap;
`InvalidOrder` when `p_position > q_position` at a checked depth,
`ExhaustedIdentifierSpace` when the search passes both identifiers' lengths. -/
def LSeq.specFindGo (L : LSeq) (p q : Identifier) : Nat → Nat → Nat → Nat → Except SpecErr (Nat × Nat)
  | 0, _, _, _ => .error .exhaustedIdentifierSpace
  | fuel + 1, d, ppos, qpos =>
    if d > p.length ∧ d > q.length then .error .exhaustedIdentifierSpace
    else
      let pp := L.specPosStep p d ppos
      let qq := L.specPosStep q d qpos
      if pp > qq then .error .invalidOrder
      else if qq - pp - 1 > 0 then .ok (d, qq - pp - 1)
      else L.specFindGo p q fuel (d + 1) pp qq

/-- Gap discovery as the claim describes it. -/
def LSeq.spec_find_new_id_depth (L : LSeq) (p q : Identifier) : Except SpecErr (Nat × Nat) :=
  L.specFindGo p q (max p.length q.length + 2) 0 0 0

/-- Mapping of the code's aborts onto the spec's error kinds, for comparing
the two gap-discovery definitions ("p cannot be greater than q" is the
`InvalidOrder` condition, the infinite-loop stop the exhausted one). -/
def panicAsSpec : RustPanic → SpecErr
  | .pCannotBeGreaterThanQ => .invalidOrder
  | _ => .exhaustedIdentifierSpace

/-- `Except.mapError` written out (keep the value, translate the error). -/
def exMapErr (f : RustPanic → SpecErr) : Except RustPanic (Nat × Nat) → Except SpecErr (Nat × Nat)
  | .ok v => .ok v
  | .error e => .error (f e)

/-- The section 4.2 virtual position of an identifier at a depth: its stored
label within its length, `arity_at(d) - 1` beyond it. -/
def LSeq.virtLabel (L : LSeq) (id : Identifier) (d : Nat) : Nat :=
  if d < id.length then idAt id d else L.specArity d - 1

/-- Depth-by-depth comparison of identifiers under the section 4.2
virtual-position rule (depths past both lengths compare equal, so scanning
`max` many depths decides). -/
def LSeq.specIdLtGo (L : LSeq) (p q : Identifier) : Nat → Nat → Bool
  | 0, _ => false
  | fuel + 1, d =>
    if L.virtLabel p d < L.virtLabel q d then true
    else if L.virtLabel q d < L.virtLabel p d then false
    else L.specIdLtGo p q fuel (d + 1)

/-- `p` strictly precedes `q` in the numeric identifier order of section 4.2. -/
def LSeq.specIdLt (L : LSeq) (p q : Identifier) : Bool :=
  L.specIdLtGo p q (max p.length q.length) 0

mutual
/-- The clock the claim describes: the pointwise merge of the causal stamp of
every entry stored anywhere in the tree, at every depth. -/
def specClockSibs : Siblings → VClock → VClock
  | .nil, acc => acc
  | .cons _ c atom rest, acc => specClockSibs rest (specClockAtom atom (acc.merge c))
def specClockAtom : Atom → VClock → VClock
  | .leaf _, acc => acc
  | .node _ ch, acc => specClockSibs ch acc
end

/-- The merge of every stored stamp, per the claim's words. -/
def spec_clock_all (sibs : Siblings) : VClock :=
  specClockSibs sibs VClock.new

/-! ## Helper lemmas on the dot maps -/

/-- Looking a key up after `dotsInsert` finds the inserted counter at the key
and leaves every other key's binding unchanged. -/
theorem dotsGet_dotsInsert (l : List (Nat × Nat)) (a : Nat) (c : Nat)
    (x : Nat) :
    dotsGet (dotsInsert l a c) x = if x = a then some c else dotsGet l x := by
  induction l with
  | nil =>
    by_cases hx : x = a <;> simp [dotsInsert, dotsGet, hx]
  | cons d rest ih =>
    obtain ⟨y, v⟩ := d
    rcases Nat.lt_trichotomy a y with hlt | heq | hgt
    · have h1 : dotsInsert ((y, v) :: rest) a c = (a, c) :: (y, v) :: rest := by
        simp [dotsInsert, hlt]
      rw [h1]
      by_cases hx : x = a <;> simp [dotsGet, hx]
    · subst heq
      have h1 : dotsInsert ((a, v) :: rest) a c = (a, c) :: rest := by
        simp [dotsInsert]
      rw [h1]
      by_cases hx : x = a <;> simp [dotsGet, hx]
    · have hna : ¬ a < y := by omega
      have hne : ¬ a = y := by omega
      have h1 : dotsInsert ((y, v) :: rest) a c = (y, v) :: dotsInsert rest a c := by
        simp [dotsInsert, hna, hne]
      rw [h1]
      by_cases hxy : x = y
      · subst hxy
        have hxa : ¬ x = a := by omega
        simp [dotsGet, hxa]
      · simp [dotsGet, hxy, ih]

/-- A key bound nowhere in the list looks up to `none`. -/
theorem dotsGet_eq_none_of_forall_ne (l : List (Nat × Nat)) (x : Nat)
    (h : ∀ d ∈ l, d.1 ≠ x) : dotsGet l x = none := by
  induction l with
  | nil => simp [dotsGet]
  | cons d rest ih =>
    obtain ⟨y, v⟩ := d
    have hy : y ≠ x := h (y, v) (by simp)
    have hr : dotsGet rest x = none := ih (fun e he => h e (by simp [he]))
    have hxy : ¬ x = y := fun hh => hy hh.symm
    simp [dotsGet, hxy, hr]

/-- On a duplicate-free map, a member binding is what lookup returns. -/
theorem dotsGet_eq_of_mem (l : List (Nat × Nat)) (w : Nat) (c : Nat)
    (hnd : l.Pairwise (fun d e => d.1 ≠ e.1)) (hm : (w, c) ∈ l) :
    dotsGet l w = some c := by
  induction l with
  | nil => simp at hm
  | cons d rest ih =>
    obtain ⟨y, v⟩ := d
    rcases List.mem_cons.mp hm with h | h
    · injection h with h1 h2
      subst h1; subst h2
      simp [dotsGet]
    · have hy : y ≠ w := (List.pairwise_cons.mp hnd).1 (w, c) h
      have hr := ih (List.pairwise_cons.mp hnd).2 h
      have hwy : ¬ w = y := fun hh => hy hh.symm
      simp [dotsGet, hwy, hr]

/-- `contains_descendent_element` in declarative form. -/
theorem contains_descendent_element_iff (vc : VClock) (a : Nat) (c : Nat) :
    vc.contains_descendent_element a c = true ↔ ∃ v, vc.getOpt a = some v ∧ c ≤ v := by
  unfold VClock.contains_descendent_element
  cases h : vc.getOpt a <;> simp [h]

/-- A `witnessMergeStep` raises the stepped actor's binding to the maximum of
the stored counter and the witnessed one, touching no other actor. -/
theorem witnessMergeStep_getOpt (acc : VClock) (w : Nat) (c : Nat) (x : Nat) :
    (acc.witnessMergeStep (w, c)).getOpt x =
      if x = w then some (max (acc.get w) c) else acc.getOpt x := by
  unfold VClock.witnessMergeStep VClock.witness
  by_cases hc : acc.contains_descendent_element w c = true
  · rcases (contains_descendent_element_iff acc w c).mp hc with ⟨v, hv, hcv⟩
    simp only [hc, if_true]
    by_cases hx : x = w
    · subst hx
      simp [VClock.get, hv, Nat.max_eq_left hcv]
    · simp [hx]
  · have hcf : acc.contains_descendent_element w c = false := by
      cases hcb : acc.contains_descendent_element w c
      · rfl
      · exact absurd hcb hc
    simp only [hcf, Bool.false_eq_true, if_false]
    show (VClock.mk (dotsInsert acc.dots w c)).getOpt x = _
    unfold VClock.getOpt
    show dotsGet (dotsInsert acc.dots w c) x = _
    rw [dotsGet_dotsInsert]
    by_cases hx : x = w
    · subst hx
      rw [if_pos rfl, if_pos rfl]
      have hle : acc.get x ≤ c := by
        unfold VClock.contains_descendent_element at hcf
        unfold VClock.get
        cases h : acc.getOpt x with
        | none => simp
        | some v =>
          rw [h] at hcf
          simp only [decide_eq_false_iff_not] at hcf
          show v ≤ c
          omega
      rw [Nat.max_eq_right hle]
    · rw [if_neg hx, if_neg hx]

/-- Folding `witnessMergeStep` over a duplicate-free dot list: each actor in
the list ends at the maximum of its accumulator counter and its listed
counter; actors outside the list keep their accumulator binding. -/
theorem foldl_witnessMergeStep_getOpt (l : List (Nat × Nat)) :
    ∀ (acc : VClock) (x : Nat), l.Pairwise (fun d e => d.1 ≠ e.1) →
      (l.foldl VClock.witnessMergeStep acc).getOpt x =
        match dotsGet l x with
        | none => acc.getOpt x
        | some c => some (max (acc.get x) c) := by
  induction l with
  | nil =>
    intro acc x _
    simp [dotsGet]
  | cons d rest ih =>
    intro acc x hnd
    obtain ⟨w, c⟩ := d
    have hrest := (List.pairwise_cons.mp hnd).2
    have hw : ∀ e ∈ rest, e.1 ≠ w := by
      intro e he hh
      exact ((List.pairwise_cons.mp hnd).1 e he) hh.symm
    by_cases hx : x = w
    · subst hx
      have hnone : dotsGet rest x = none := dotsGet_eq_none_of_forall_ne rest x hw
      rw [List.foldl_cons, ih _ x hrest, hnone]
      simp [dotsGet, witnessMergeStep_getOpt]
    · rw [List.foldl_cons, ih _ x hrest]
      have hstep := witnessMergeStep_getOpt acc w c x
      rw [if_neg hx] at hstep
      have hget : (acc.witnessMergeStep (w, c)).get x = acc.get x := by
        unfold VClock.get
        rw [hstep]
      cases h : dotsGet rest x with
      | none => simp [dotsGet, hx, h, hstep]
      | some c' => simp [dotsGet, hx, h, hget]

/-- Pointwise value of a merge: the maximum of the two clocks' counters
(a duplicate-free `other`, as a `BTreeMap`'s iteration always is). -/
theorem merge_get (a b : VClock) (hb : b.dots.Pairwise (fun d e => d.1 ≠ e.1)) (x : Nat) :
    (a.merge b).get x = max (a.get x) (b.get x) := by
  have hfold := foldl_witnessMergeStep_getOpt b.dots a x hb
  show ((b.dots.foldl VClock.witnessMergeStep a).getOpt x).getD 0 = _
  rw [hfold]
  cases hbx : dotsGet b.dots x with
  | none =>
    have hb0 : b.get x = 0 := by
      unfold VClock.get VClock.getOpt
      rw [hbx]
      rfl
    rw [hb0]
    simp [VClock.get]
  | some c =>
    have hbc : b.get x = c := by
      unfold VClock.get VClock.getOpt
      rw [hbx]
      rfl
    rw [hbc]
    rfl

/-- A merge never erases an actor: any actor bound in `a` or in `b` stays
bound in `a.merge b`. -/
theorem merge_getOpt_isSome (a b : VClock) (hb : b.dots.Pairwise (fun d e => d.1 ≠ e.1))
    (x : Nat) (h : a.getOpt x ≠ none ∨ dotsGet b.dots x ≠ none) :
    (a.merge b).getOpt x = some ((a.merge b).get x) := by
  have hfold := foldl_witnessMergeStep_getOpt b.dots a x hb
  show (b.dots.foldl VClock.witnessMergeStep a).getOpt x =
    some (((b.dots.foldl VClock.witnessMergeStep a).getOpt x).getD 0)
  rw [hfold]
  cases hbx : dotsGet b.dots x with
  | none =>
    rcases h with h | h
    · cases hax : a.getOpt x with
      | none => exact absurd hax h
      | some v => simp
    · exact absurd hbx h
  | some c => simp

/-- Inserting never produces the empty map. -/
theorem dotsInsert_ne_nil (l : List (Nat × Nat)) (a c : Nat) : dotsInsert l a c ≠ [] := by
  cases l with
  | nil => simp [dotsInsert]
  | cons d rest =>
    obtain ⟨y, v⟩ := d
    by_cases h1 : a < y
    · simp [dotsInsert, h1]
    · by_cases h2 : a = y <;> simp [dotsInsert, h1, h2]

/-- Induction along the spine of a tree level (the entries' atoms are not
recursed into). -/
theorem siblingsSpineInd (motive : Siblings → Prop) (h0 : motive .nil)
    (h1 : ∀ id c a rest, motive rest → motive (.cons id c a rest)) :
    ∀ s, motive s
  | .nil => h0
  | .cons id c a rest => h1 id c a rest (siblingsSpineInd motive h0 h1 rest)

/-- The causal stamps of a level's entries, in table order (the list over
which `clock()` folds). -/
def rootStamps : Siblings → List VClock
  | .nil => []
  | .cons _ c _ rest => c :: rootStamps rest

/-! ## Concrete fixtures used by the witnesses and counterexamples -/

/-- A one-dot causal context, as `derive_add_ctx` would produce on a fresh
replica (actor 100, counter 1). -/
def ckA : VClock := ⟨[(100, 1)]⟩

/-- The `Insert` operation of value 42 between the BEGIN and END sentinels
(`p = q = None`), under context `ckA`. -/
def opA : Op := .insert ckA 42 none none

/-- A clock holding the explicit zero dot `(7, 0)`. -/
def vcZero7 : VClock := ⟨[(7, 0)]⟩

/-- A root level already holding label 1 (used to trip the allocation
collision). -/
def c4tree : Siblings := .cons 1 ckA (.leaf 5) .nil

/-- A tree with a `Node` at depth 0 (label 5) whose child at depth 1
(label 7) is itself a `Node` with a leaf child (label 3). -/
def c3tree : Siblings :=
  .cons 5 ckA (.node 11 (.cons 7 ckA (.node 22 (.cons 3 ckA (.leaf 33) .nil)) .nil)) .nil

/-- An `LSeq` (default parameters) whose tree is `c3tree`. -/
def c3seq : LSeq := { boundary := 10, root_arity := 32, strategies := [true], tree := c3tree }

/-- A tree whose root entry (stamp `{100: 1}`) is a `Node` holding a nested
leaf entry with stamp `{200: 7}`. -/
def c5tree : Siblings :=
  .cons 1 ⟨[(100, 1)]⟩ (.node 10 (.cons 2 ⟨[(200, 7)]⟩ (.leaf 20) .nil)) .nil

/-- An `LSeq` (default parameters) whose tree is `c5tree`. -/
def c5seq : LSeq := { boundary := 10, root_arity := 32, strategies := [true], tree := c5tree }

/-! ## Claim theorems -/

/-- C1: the claim — two replicas in equal states that apply the same
well-formed operation set in any orders converge, `apply` being commutative,
associative and idempotent — fails on this code: `apply` draws a fresh random
label at application time, so the very same `Insert` applied to the very same
(empty) state yields different flattened sequences under different draws of
the ambient generator (both draws legal for `gen_range(1, 11)`), and
re-delivering the operation to a replica that already applied it aborts the
process at the "number was already taken!" panic instead of being idempotent.
This theorem evaluates the code at that failing input. -/
theorem apply_same_op_diverges_and_aborts :
    (LSeq.apply LSeq.new opA [0]).map (fun r => r.1.flatten) = .ok [([1], 42)] ∧
    (LSeq.apply LSeq.new opA [1]).map (fun r => r.1.flatten) = .ok [([2], 42)] ∧
    (LSeq.apply LSeq.new opA [0] >>= fun r => LSeq.apply r.1 opA [0]) =
      .error .numberAlreadyTaken := by
  refine ⟨rfl, rfl, rfl⟩

/-- C4: the claim — every allocation failure other than the empty-context
case surfaces as an explicit typed result and never as a process-level
abort — fails on this code: an `Insert` whose predecessor `[2]` does not
precede its successor `[1]` reaches the `panic!("p cannot be greater than q")`
abort (no typed `InvalidOrder` result exists in this crate's apply path), and
an `Insert` whose drawn label is already occupied reaches
`panic!("number was already taken!")` with no bounded retry.  This theorem
evaluates the code at both failing inputs. -/
theorem apply_invalid_order_aborts :
    LSeq.apply LSeq.new (.insert ckA 7 (some [2]) (some [1])) [0] =
      .error .pCannotBeGreaterThanQ ∧
    LSeq.apply { LSeq.new with tree := c4tree } (.insert ⟨[(100, 2)]⟩ 8 none none) [0] =
      .error .numberAlreadyTaken := by
  refine ⟨rfl, rfl⟩

/-- C6: applying an `Insert` whose causal clock is empty is a silent no-op:
`apply` returns without error and the whole LSeq state (tree, boundary,
arity, strategies) — and even the random stream — is exactly as before. -/
theorem apply_empty_clock_noop :
    ∀ (L : LSeq) (rng : List Nat) (ck : VClock) (v : Nat) (p q : Option Identifier),
      ck.is_empty = true → LSeq.apply L (.insert ck v p q) rng = .ok (L, rng) := by
  intro L rng ck v p q h
  simp [LSeq.apply, h]

/-- Witness for C6 at a concrete state and operation. -/
theorem apply_empty_clock_noop_witness :
    VClock.new.is_empty = true ∧
    LSeq.apply LSeq.new (.insert VClock.new 5 none none) [3] = .ok (LSeq.new, [3]) :=
  ⟨rfl, apply_empty_clock_noop LSeq.new [3] VClock.new 5 none none rfl⟩

/-- C9: `witness(actor, counter)` succeeds — returning the clock with the
counter stored under the actor — exactly when the actor is absent or the
counter strictly exceeds the stored one; otherwise it fails with
`ConflictingDot` (the source's `Err` branch performs no insertion, so the
clock is unchanged; the model's error constructor carries no new clock). -/
theorem witness_strictly_monotone :
    ∀ (vc : VClock) (a c : Nat),
      ((vc.getOpt a = none ∨ vc.get a < c) →
        vc.witness a c = .ok ⟨dotsInsert vc.dots a c⟩ ∧
        (VClock.mk (dotsInsert vc.dots a c)).getOpt a = some c) ∧
      (¬(vc.getOpt a = none ∨ vc.get a < c) →
        vc.witness a c = .error .conflictingDot) := by
  intro vc a c
  constructor
  · intro h
    have hcf : vc.contains_descendent_element a c = false := by
      cases hcb : vc.contains_descendent_element a c
      · rfl
      · exfalso
        rcases (contains_descendent_element_iff vc a c).mp hcb with ⟨v, hv, hcv⟩
        rcases h with h | h
        · rw [h] at hv
          exact Option.noConfusion hv
        · unfold VClock.get at h
          rw [hv] at h
          simp at h
          omega
    constructor
    · simp [VClock.witness, hcf]
    · show dotsGet (dotsInsert vc.dots a c) a = some c
      rw [dotsGet_dotsInsert, if_pos rfl]
  · intro h
    push_neg at h
    obtain ⟨h1, h2⟩ := h
    cases hv : vc.getOpt a with
    | none => exact absurd hv h1
    | some s =>
      have hs : vc.get a = s := by
        unfold VClock.get
        rw [hv]
        rfl
      have hct : vc.contains_descendent_element a c = true :=
        (contains_descendent_element_iff vc a c).mpr ⟨s, hv, by omega⟩
      simp [VClock.witness, hct]

/-- Witness for C9: on a fresh clock, `witness(7, 2)` succeeds and a
subsequent `witness(7, 1)` fails with `ConflictingDot`. -/
theorem witness_strictly_monotone_witness :
    VClock.new.witness 7 2 = .ok ⟨[(7, 2)]⟩ ∧
    VClock.witness ⟨[(7, 2)]⟩ 7 1 = .error .conflictingDot :=
  ⟨rfl, (witness_strictly_monotone ⟨[(7, 2)]⟩ 7 1).2 (by decide)⟩

/-- C10: `witness(actor, 0)` on a clock where the actor is absent succeeds
and stores an explicit `(actor, 0)` dot: afterwards `is_empty()` is false and
the clock differs (as a value, the Rust `==`) from a fresh empty clock, even
though `get` still answers 0 for the witnessed actor — and, when the starting
clock was empty, for every actor of both clocks. -/
theorem witness_zero_dot_observable :
    ∀ (vc : VClock) (a : Nat), vc.getOpt a = none →
      vc.witness a 0 = .ok ⟨dotsInsert vc.dots a 0⟩ ∧
      (VClock.mk (dotsInsert vc.dots a 0)).getOpt a = some 0 ∧
      (VClock.mk (dotsInsert vc.dots a 0)).is_empty = false ∧
      VClock.mk (dotsInsert vc.dots a 0) ≠ VClock.new ∧
      (VClock.mk (dotsInsert vc.dots a 0)).get a = 0 ∧
      VClock.new.get a = 0 ∧
      (vc = VClock.new → ∀ x, (VClock.mk (dotsInsert vc.dots a 0)).get x = 0) := by
  intro vc a h
  have hw : vc.witness a 0 = .ok ⟨dotsInsert vc.dots a 0⟩ := by
    simp [VClock.witness, VClock.contains_descendent_element, h]
  have hg : (VClock.mk (dotsInsert vc.dots a 0)).getOpt a = some 0 := by
    show dotsGet (dotsInsert vc.dots a 0) a = some 0
    rw [dotsGet_dotsInsert, if_pos rfl]
  refine ⟨hw, hg, ?_, ?_, ?_, rfl, ?_⟩
  · show (dotsInsert vc.dots a 0).isEmpty = false
    cases hins : dotsInsert vc.dots a 0 with
    | nil => exact absurd hins (dotsInsert_ne_nil vc.dots a 0)
    | cons d rest => rfl
  · intro heq
    have : dotsInsert vc.dots a 0 = [] := congrArg VClock.dots heq
    exact dotsInsert_ne_nil vc.dots a 0 this
  · unfold VClock.get
    rw [hg]
    rfl
  · intro hvc x
    subst hvc
    show (dotsGet (dotsInsert [] a 0) x).getD 0 = 0
    rw [dotsGet_dotsInsert]
    by_cases hx : x = a
    · rw [if_pos hx]
      rfl
    · rw [if_neg hx]
      rfl

/-- Witness for C10 on the empty clock and actor 7. -/
theorem witness_zero_dot_observable_witness :
    VClock.new.getOpt 7 = none ∧
    VClock.mk (dotsInsert VClock.new.dots 7 0) ≠ VClock.new :=
  ⟨rfl, (witness_zero_dot_observable VClock.new 7 rfl).2.2.2.1⟩

/-- C8 counterexample: with `b = {7: 0}` (an explicit zero dot) and `a` the
empty clock, the dot sets differ and, for every actor in `b`, `a`'s counter
(implicit 0 for an absent actor, per the data model) is ≥ `b`'s — so the
claim's characterization demands `Greater` — yet `partial_cmp` returns
`Less`, because its domination test requires the actor to be explicitly
present in `a`. -/
theorem partCmp_zero_dot_counterexample :
    VClock.partCmp VClock.new vcZero7 = some .lt ∧
    VClock.new ≠ vcZero7 ∧
    (∀ d ∈ vcZero7.dots, vcZero7.get d.1 ≤ VClock.new.get d.1) := by
  refine ⟨rfl, by decide, by decide⟩

/-- C8 (amended): `partial_cmp` returns `Equal` iff the clocks (hence their
dot sets) coincide; `Greater` iff they differ and every dot `(w, c)` of `b`
has `w` explicitly present in `a` with stored counter ≥ `c` (an actor absent
from `a` dominates nothing, not even a zero dot); `Less` in the symmetric
case (tested only after the `Greater` test fails); `None` otherwise. -/
theorem partCmp_characterization :
    ∀ a b : VClock,
      (a.partCmp b = some .eq ↔ a = b) ∧
      (a.partCmp b = some .gt ↔
        a ≠ b ∧ ∀ d ∈ b.dots, ∃ v, a.getOpt d.1 = some v ∧ d.2 ≤ v) ∧
      (a.partCmp b = some .lt ↔
        a ≠ b ∧ ¬(∀ d ∈ b.dots, ∃ v, a.getOpt d.1 = some v ∧ d.2 ≤ v) ∧
        (∀ d ∈ a.dots, ∃ v, b.getOpt d.1 = some v ∧ d.2 ≤ v)) ∧
      (a.partCmp b = none ↔
        a ≠ b ∧ ¬(∀ d ∈ b.dots, ∃ v, a.getOpt d.1 = some v ∧ d.2 ≤ v) ∧
        ¬(∀ d ∈ a.dots, ∃ v, b.getOpt d.1 = some v ∧ d.2 ≤ v)) := by
  intro a b
  have hB : (b.dots.all (fun d => a.contains_descendent_element d.1 d.2) = true) ↔
      (∀ d ∈ b.dots, ∃ v, a.getOpt d.1 = some v ∧ d.2 ≤ v) := by
    simp only [List.all_eq_true, contains_descendent_element_iff]
  have hA : (a.dots.all (fun d => b.contains_descendent_element d.1 d.2) = true) ↔
      (∀ d ∈ a.dots, ∃ v, b.getOpt d.1 = some v ∧ d.2 ≤ v) := by
    simp only [List.all_eq_true, contains_descendent_element_iff]
  rw [← hB, ← hA]
  unfold VClock.partCmp
  by_cases h1 : a = b
  · simp [h1]
  · by_cases h2 : b.dots.all (fun d => a.contains_descendent_element d.1 d.2) = true
    · simp [h1, h2]
    · by_cases h3 : a.dots.all (fun d => b.contains_descendent_element d.1 d.2) = true
      · simp [h1, h2, h3]
      · simp [h1, h2, h3]

/-- C7: merging is a pointwise maximum — after `a.merge(&b)` every actor's
counter (via `get`, absent actors counting 0) is the maximum of its pre-merge
counters in `a` and `b` — and the merged clock dominates both pre-merge
clocks under `partial_cmp` (`Greater` or `Equal`). -/
theorem merge_pointwise_max_dominates :
    ∀ a b : VClock, a.WF → b.WF →
      (∀ x, (a.merge b).get x = max (a.get x) (b.get x)) ∧
      ((a.merge b).partCmp a = some .gt ∨ (a.merge b).partCmp a = some .eq) ∧
      ((a.merge b).partCmp b = some .gt ∨ (a.merge b).partCmp b = some .eq) := by
  intro a b ha hb
  have hane : a.dots.Pairwise (fun d e => d.1 ≠ e.1) :=
    ha.imp (fun h => Nat.ne_of_lt h)
  have hbne : b.dots.Pairwise (fun d e => d.1 ≠ e.1) :=
    hb.imp (fun h => Nat.ne_of_lt h)
  have hpt : ∀ x, (a.merge b).get x = max (a.get x) (b.get x) :=
    fun x => merge_get a b hbne x
  refine ⟨hpt, ?_, ?_⟩
  · by_cases heq : a.merge b = a
    · right
      simp [VClock.partCmp, heq]
    · left
      have hall : a.dots.all
          (fun d => (a.merge b).contains_descendent_element d.1 d.2) = true := by
        rw [List.all_eq_true]
        intro d hd
        obtain ⟨w, c⟩ := d
        have hga : a.getOpt w = some c := dotsGet_eq_of_mem a.dots w c hane hd
        have hsome : (a.merge b).getOpt w = some ((a.merge b).get w) :=
          merge_getOpt_isSome a b hbne w (Or.inl (by rw [hga]; exact Option.noConfusion))
        refine (contains_descendent_element_iff _ w c).mpr
          ⟨(a.merge b).get w, hsome, ?_⟩
        rw [hpt w]
        have : a.get w = c := by
          unfold VClock.get
          rw [hga]
          rfl
        omega
      simp [VClock.partCmp, heq, hall]
  · by_cases heq : a.merge b = b
    · right
      simp [VClock.partCmp, heq]
    · left
      have hall : b.dots.all
          (fun d => (a.merge b).contains_descendent_element d.1 d.2) = true := by
        rw [List.all_eq_true]
        intro d hd
        obtain ⟨w, c⟩ := d
        have hgb : dotsGet b.dots w = some c := dotsGet_eq_of_mem b.dots w c hbne hd
        have hsome : (a.merge b).getOpt w = some ((a.merge b).get w) :=
          merge_getOpt_isSome a b hbne w (Or.inr (by rw [hgb]; exact Option.noConfusion))
        refine (contains_descendent_element_iff _ w c).mpr
          ⟨(a.merge b).get w, hsome, ?_⟩
        rw [hpt w]
        have : b.get w = c := by
          unfold VClock.get VClock.getOpt
          rw [hgb]
          rfl
        omega
      simp [VClock.partCmp, heq, hall]

/-- Witness for C7 at concrete clocks `{1: 2}` and `{1: 1, 2: 3}`. -/
theorem merge_pointwise_max_witness :
    VClock.WF ⟨[(1, 2)]⟩ ∧ VClock.WF ⟨[(1, 1), (2, 3)]⟩ ∧
    (VClock.merge ⟨[(1, 2)]⟩ ⟨[(1, 1), (2, 3)]⟩).get 2 =
      max ((⟨[(1, 2)]⟩ : VClock).get 2) ((⟨[(1, 1), (2, 3)]⟩ : VClock).get 2) :=
  ⟨by decide, by decide,
    (merge_pointwise_max_dominates ⟨[(1, 2)]⟩ ⟨[(1, 1), (2, 3)]⟩ (by decide) (by decide)).1 2⟩

/-- The fold in `clock()` accumulates, per actor, the maximum counter over the
root level's stamps (given well-formed stamps). -/
theorem clockFold_get :
    ∀ (sibs : Siblings), (∀ c ∈ rootStamps sibs, c.WF) →
      ∀ (acc : VClock) (x : Nat),
        (clockFold sibs acc).get x =
          (rootStamps sibs).foldl (fun m cl => max m (cl.get x)) (acc.get x) := by
  intro sibs
  induction sibs using siblingsSpineInd with
  | h0 =>
    intro _ acc x
    simp [clockFold, rootStamps]
  | h1 id c a rest ih =>
    intro h acc x
    have hcWF : c.WF := h c (by simp [rootStamps])
    have hrest : ∀ c' ∈ rootStamps rest, c'.WF :=
      fun c' hc' => h c' (by simp [rootStamps, hc'])
    have hcne : c.dots.Pairwise (fun d e => d.1 ≠ e.1) :=
      hcWF.imp (fun hh => Nat.ne_of_lt hh)
    show (clockFold rest (acc.merge c)).get x = _
    rw [ih hrest (acc.merge c) x, merge_get acc c hcne x]
    show _ = (rootStamps (.cons id c a rest)).foldl (fun m cl => max m (cl.get x)) (acc.get x)
    rw [show rootStamps (.cons id c a rest) = c :: rootStamps rest from rfl, List.foldl_cons]

/-- C5 (amended): `clock()` is the pointwise merge of the causal stamps of the
root-level (depth-1) entries only — for every actor, its counter in the
returned clock is the maximum over the root level's stamps; stamps of entries
nested at deeper levels do not contribute. -/
theorem clock_root_level_pointwise_max :
    ∀ (L : LSeq) (x : Nat), (∀ c ∈ rootStamps L.tree, c.WF) →
      L.clock.get x = (rootStamps L.tree).foldl (fun m cl => max m (cl.get x)) 0 := by
  intro L x h
  show (clockFold L.tree VClock.new).get x = _
  rw [clockFold_get L.tree h VClock.new x]
  rfl

/-- Witness for C5 at the concrete two-level tree `c5tree`. -/
theorem clock_root_level_witness :
    (∀ c ∈ rootStamps c5seq.tree, c.WF) ∧
    (LSeq.clock c5seq).get 100 =
      (rootStamps c5seq.tree).foldl (fun m cl => max m (cl.get 100)) 0 :=
  ⟨by decide, clock_root_level_pointwise_max c5seq 100 (by decide)⟩

/-- C5 counterexample: in `c5tree` a depth-2 entry carries the stamp
`{200: 7}`, so the claim demands `clock().get(200) = 7`; the code's `clock()`
folds over the root level only and answers 0, while the spec-side merge of
every stored stamp (at every depth) answers 7. -/
theorem clock_misses_nested_stamps :
    (LSeq.clock c5seq).get 200 = 0 ∧
    (spec_clock_all c5seq.tree).get 200 = 7 := by
  refine ⟨rfl, rfl⟩

/-- C3 counterexample: flattening `c3tree` emits the depth-1 node `[5,7]`
before its child `[5,7,3]` although the child strictly precedes it in the
section 4.2 numeric identifier order, and emits the even-depth (depth-0)
node `[5]` after — not before — its children; so neither the claimed
emit-before-children-at-even-depth rule nor the claimed agreement with the
numeric order holds of `flatten`. -/
theorem flatten_order_counterexample :
    c3seq.flatten = [([5, 7], 22), ([5, 7, 3], 33), ([5], 11)] ∧
    c3seq.specIdLt [5, 7, 3] [5, 7] = true ∧
    c3seq.specIdLt [5, 7] [5, 7, 3] = false := by
  refine ⟨rfl, rfl, rfl⟩

/-- C3 (amended): `flatten_tree` is a depth-first, label-ascending traversal
in which a `Node` at depth `d` (its children living at depth `d + 1`) has its
own value emitted before its children exactly when `d + 1` is even — i.e.
when the children's depth uses the boundary+ strategy — and after them when
`d + 1` is odd; the resulting order therefore does not in general coincide
with the section 4.2 numeric identifier order (the counterexample has an
odd-depth node preceding its numerically smaller children). -/
theorem flatten_emission_parity :
    ∀ (id v : Nat) (c : VClock) (ch rest : Siblings) (pre : Identifier),
      flattenSibs (.cons id c (.node v ch) rest) pre =
        (if (pre.length + 1) % 2 = 0 then
          (pre ++ [id], v) :: flattenSibs ch (pre ++ [id])
        else
          flattenSibs ch (pre ++ [id]) ++ [(pre ++ [id], v)]) ++ flattenSibs rest pre := by
  intro id v c ch rest pre
  show flattenAtom id (.node v ch) pre ++ flattenSibs rest pre = _
  unfold flattenAtom get_deterministic_strategy
  by_cases hp : (pre.length + 1) % 2 = 0
  · simp [hp]
  · simp [hp]

theorem shl64_zero (s : Nat) : shl64 0 s = 0 := by
  simp [shl64]

theorem posStep_single_d0 (L : LSeq) (a : Nat) (h : a < U64MOD) :
    L.posStep [a] 0 0 = a := by
  unfold LSeq.posStep
  rw [if_pos (by simp)]
  simp [idAt, shl64_zero, Nat.mod_eq_of_lt h]

theorem posStep_single_d1 (a pos : Nat) (h : pos ≤ 2 ^ 46) :
    LSeq.new.posStep [a] 1 pos = 64 * pos + 63 := by
  unfold LSeq.posStep
  rw [if_neg (by simp)]
  have h1 : LSeq.new.arity_at 1 = 64 := rfl
  rw [h1]
  have h2 : natLog2 64 = 6 := rfl
  rw [h2]
  have hb : pos * 2 ^ (6 % 64) = 64 * pos := by
    norm_num
    ring
  have hlt : 64 * pos < U64MOD := by
    calc 64 * pos ≤ 64 * 2 ^ 46 := Nat.mul_le_mul_left 64 h
    _ < U64MOD := by norm_num [U64MOD]
  have hlt2 : 64 * pos + 63 < U64MOD := by
    have : 64 * pos + 63 ≤ 64 * 2 ^ 46 + 63 := by
      have := Nat.mul_le_mul_left 64 h
      omega
    have h2 : 64 * 2 ^ 46 + 63 < U64MOD := by norm_num [U64MOD]
    omega
  unfold shl64
  rw [hb, Nat.mod_eq_of_lt hlt]
  show (64 * pos + (64 - 1)) % U64MOD = 64 * pos + 63
  rw [Nat.mod_eq_of_lt (by omega)]

theorem specPosStep_single_d0 (a : Nat) : LSeq.new.specPosStep [a] 0 0 = a := by
  unfold LSeq.specPosStep
  rw [if_pos (by simp)]
  simp [idAt, LSeq.specArity]

theorem specPosStep_single_d1 (a pos : Nat) : LSeq.new.specPosStep [a] 1 pos = 64 * pos + 63 := by
  unfold LSeq.specPosStep
  rw [if_neg (by simp)]
  show pos * LSeq.new.specArity 1 + (LSeq.new.specArity 1 - 1) = 64 * pos + 63
  have h1 : LSeq.new.specArity 1 = 64 := rfl
  rw [h1]
  omega

theorem single_label_agree :
    ∀ a b : Nat, a ≤ 2 ^ 46 → b ≤ 2 ^ 46 →
      exMapErr panicAsSpec (LSeq.find_new_id_depth LSeq.new [a] [b]) =
        LSeq.spec_find_new_id_depth LSeq.new [a] [b] := by
  intro a b ha hb
  have h46 : (2 : Nat) ^ 46 < U64MOD := by norm_num [U64MOD]
  have hUa : a < U64MOD := by omega
  have hUb : b < U64MOD := by omega
  have c0 : LSeq.findGo LSeq.new [a] [b] 3 0 0 0 =
      (if LSeq.new.posStep [a] 0 0 > LSeq.new.posStep [b] 0 0 then
         Except.error RustPanic.pCannotBeGreaterThanQ
       else if (if LSeq.new.posStep [b] 0 0 > LSeq.new.posStep [a] 0 0 then
             LSeq.new.posStep [b] 0 0 - LSeq.new.posStep [a] 0 0 - 1 else 0) > 0 then
         Except.ok (0, if LSeq.new.posStep [b] 0 0 > LSeq.new.posStep [a] 0 0 then
             LSeq.new.posStep [b] 0 0 - LSeq.new.posStep [a] 0 0 - 1 else 0)
       else LSeq.findGo LSeq.new [a] [b] 2 1 (LSeq.new.posStep [a] 0 0)
         (LSeq.new.posStep [b] 0 0)) := rfl
  have s0 : LSeq.specFindGo LSeq.new [a] [b] 3 0 0 0 =
      (if LSeq.new.specPosStep [a] 0 0 > LSeq.new.specPosStep [b] 0 0 then
         Except.error SpecErr.invalidOrder
       else if LSeq.new.specPosStep [b] 0 0 - LSeq.new.specPosStep [a] 0 0 - 1 > 0 then
         Except.ok (0, LSeq.new.specPosStep [b] 0 0 - LSeq.new.specPosStep [a] 0 0 - 1)
       else LSeq.specFindGo LSeq.new [a] [b] 2 1 (LSeq.new.specPosStep [a] 0 0)
         (LSeq.new.specPosStep [b] 0 0)) := rfl
  rw [posStep_single_d0 LSeq.new a hUa, posStep_single_d0 LSeq.new b hUb] at c0
  rw [specPosStep_single_d0 a, specPosStep_single_d0 b] at s0
  show exMapErr panicAsSpec (LSeq.findGo LSeq.new [a] [b] 3 0 0 0) =
    LSeq.specFindGo LSeq.new [a] [b] 3 0 0 0
  rcases Nat.lt_trichotomy a b with h | h | h
  · -- a < b: either the depth-0 gap is positive, or b = a + 1 and depth 1 decides
    have hno : ¬ a > b := by omega
    have hyes : b > a := h
    by_cases h2 : b - a - 1 > 0
    · rw [c0, if_neg hno, if_pos hyes, if_pos h2, s0, if_neg hno, if_pos h2]
      rfl
    · have hb1 : b = a + 1 := by omega
      subst hb1
      have hz : ¬ (a + 1 - a - 1 > 0) := by omega
      rw [c0, if_neg hno, if_pos hyes, if_neg hz, s0, if_neg hno, if_neg h2]
      have c1 : LSeq.findGo LSeq.new [a] [a + 1] 2 1 a (a + 1) =
          (if LSeq.new.posStep [a] 1 a > LSeq.new.posStep [a + 1] 1 (a + 1) then
             Except.error RustPanic.pCannotBeGreaterThanQ
           else if (if LSeq.new.posStep [a + 1] 1 (a + 1) > LSeq.new.posStep [a] 1 a then
                 LSeq.new.posStep [a + 1] 1 (a + 1) - LSeq.new.posStep [a] 1 a - 1 else 0) > 0 then
             Except.ok (1, if LSeq.new.posStep [a + 1] 1 (a + 1) > LSeq.new.posStep [a] 1 a then
                 LSeq.new.posStep [a + 1] 1 (a + 1) - LSeq.new.posStep [a] 1 a - 1 else 0)
           else LSeq.findGo LSeq.new [a] [a + 1] 1 2 (LSeq.new.posStep [a] 1 a)
             (LSeq.new.posStep [a + 1] 1 (a + 1))) := rfl
      have s1 : LSeq.specFindGo LSeq.new [a] [a + 1] 2 1 a (a + 1) =
          (if LSeq.new.specPosStep [a] 1 a > LSeq.new.specPosStep [a + 1] 1 (a + 1) then
             Except.error SpecErr.invalidOrder
           else if LSeq.new.specPosStep [a + 1] 1 (a + 1) - LSeq.new.specPosStep [a] 1 a - 1 > 0 then
             Except.ok (1, LSeq.new.specPosStep [a + 1] 1 (a + 1) - LSeq.new.specPosStep [a] 1 a - 1)
           else LSeq.specFindGo LSeq.new [a] [a + 1] 1 2 (LSeq.new.specPosStep [a] 1 a)
             (LSeq.new.specPosStep [a + 1] 1 (a + 1))) := rfl
      rw [posStep_single_d1 a a ha, posStep_single_d1 (a + 1) (a + 1) hb] at c1
      rw [specPosStep_single_d1 a a, specPosStep_single_d1 (a + 1) (a + 1)] at s1
      have h1no : ¬ (64 * a + 63 > 64 * (a + 1) + 63) := by omega
      have h1yes : 64 * (a + 1) + 63 > 64 * a + 63 := by omega
      have h1pos : 64 * (a + 1) + 63 - (64 * a + 63) - 1 > 0 := by omega
      rw [if_neg h1no, if_pos h1yes, if_pos h1pos] at c1
      rw [if_neg h1no, if_pos h1pos] at s1
      rw [c1, s1]
      rfl
  · -- a = b: positions coincide at every depth, both searches exhaust
    subst h
    have hno : ¬ a > a := by omega
    have hz : ¬ ((if a > a then a - a - 1 else 0) > 0) := by
      rw [if_neg hno]
      omega
    have hzs : ¬ (a - a - 1 > 0) := by omega
    rw [c0, if_neg hno, if_neg hz, s0, if_neg hno, if_neg hzs]
    have c1 : LSeq.findGo LSeq.new [a] [a] 2 1 a a =
        (if LSeq.new.posStep [a] 1 a > LSeq.new.posStep [a] 1 a then
           Except.error RustPanic.pCannotBeGreaterThanQ
         else if (if LSeq.new.posStep [a] 1 a > LSeq.new.posStep [a] 1 a then
               LSeq.new.posStep [a] 1 a - LSeq.new.posStep [a] 1 a - 1 else 0) > 0 then
           Except.ok (1, if LSeq.new.posStep [a] 1 a > LSeq.new.posStep [a] 1 a then
               LSeq.new.posStep [a] 1 a - LSeq.new.posStep [a] 1 a - 1 else 0)
         else LSeq.findGo LSeq.new [a] [a] 1 2 (LSeq.new.posStep [a] 1 a)
           (LSeq.new.posStep [a] 1 a)) := rfl
    have s1 : LSeq.specFindGo LSeq.new [a] [a] 2 1 a a =
        (if LSeq.new.specPosStep [a] 1 a > LSeq.new.specPosStep [a] 1 a then
           Except.error SpecErr.invalidOrder
         else if LSeq.new.specPosStep [a] 1 a - LSeq.new.specPosStep [a] 1 a - 1 > 0 then
           Except.ok (1, LSeq.new.specPosStep [a] 1 a - LSeq.new.specPosStep [a] 1 a - 1)
         else LSeq.specFindGo LSeq.new [a] [a] 1 2 (LSeq.new.specPosStep [a] 1 a)
           (LSeq.new.specPosStep [a] 1 a)) := rfl
    rw [posStep_single_d1 a a ha] at c1
    rw [specPosStep_single_d1 a a] at s1
    have h1no : ¬ (64 * a + 63 > 64 * a + 63) := by omega
    have h1z : ¬ ((if (64 * a + 63 : Nat) > 64 * a + 63 then 64 * a + 63 - (64 * a + 63) - 1 else 0) > 0) := by
      rw [if_neg h1no]
      omega
    have h1zs : ¬ (64 * a + 63 - (64 * a + 63) - 1 > 0) := by omega
    rw [if_neg h1no, if_neg h1z] at c1
    rw [if_neg h1no, if_neg h1zs] at s1
    have c2 : LSeq.findGo LSeq.new [a] [a] 1 2 (64 * a + 63) (64 * a + 63) =
        Except.error RustPanic.infiniteLoopStop := rfl
    have s2 : LSeq.specFindGo LSeq.new [a] [a] 1 2 (64 * a + 63) (64 * a + 63) =
        Except.error SpecErr.exhaustedIdentifierSpace := rfl
    rw [c1, c2, s1, s2]
    rfl
  · -- b < a: both fail at depth 0
    have hgt : a > b := h
    rw [c0, if_pos hgt, s0, if_pos hgt]
    rfl

/-- C2 counterexample: for `p = [2,5]`, `q = [3,1]` (default root arity 32)
the claim's mixed-radix rule gives positions 2·64+5 = 133 < 3·64+1 = 193 at
depth 1 and hence the answer (depth 1, gap 59); the code's bit-length-shift
accumulation instead computes (2<<3)+5 = 21 > (3<<1)+1 = 7 there and dies at
the "p cannot be greater than q" (InvalidOrder) abort, although the
predecessor precedes the successor. -/
theorem find_new_id_depth_not_mixed_radix :
    LSeq.find_new_id_depth LSeq.new [2, 5] [3, 1] = .error .pCannotBeGreaterThanQ ∧
    LSeq.spec_find_new_id_depth LSeq.new [2, 5] [3, 1] = .ok (1, 59) := by
  refine ⟨rfl, rfl⟩

/-- C2 (amended): within an identifier's length, `find_new_id_depth`
accumulates positions by shifting by the bit length of the stored label
(`num_of_binary_digits`), not by `log2(arity_at(d))` — the first conjunct is
that step characterization — so the mixed-radix description only holds when
the two coincide; in particular on single-label identifiers under the default
(power-of-two) arity the returned depth, gap, and the InvalidOrder/exhausted
failures all match the claim's mixed-radix description (second conjunct,
for all labels up to 2^46, where the `f64` bit-length pipeline is exact). -/
theorem find_new_id_depth_bitshift_single_label :
    (∀ (L : LSeq) (id : Identifier) (d pos : Nat), d < id.length →
      L.posStep id d pos =
        (shl64 pos (num_of_binary_digits (idAt id d)) + idAt id d) % U64MOD) ∧
    (∀ a b : Nat, a ≤ 2 ^ 46 → b ≤ 2 ^ 46 →
      exMapErr panicAsSpec (LSeq.find_new_id_depth LSeq.new [a] [b]) =
        LSeq.spec_find_new_id_depth LSeq.new [a] [b]) := by
  constructor
  · intro L id d pos h
    unfold LSeq.posStep
    rw [if_pos h]
  · exact single_label_agree

/-- Witness for C2 at the stored-label step `posStep [5] 0 3` and the
single-label pair `[1]`, `[2]`. -/
theorem find_new_id_depth_single_label_witness :
    (0 : Nat) < ([5] : Identifier).length ∧
    (1 : Nat) ≤ 2 ^ 46 ∧ (2 : Nat) ≤ 2 ^ 46 ∧
    LSeq.new.posStep [5] 0 3 =
      (shl64 3 (num_of_binary_digits (idAt [5] 0)) + idAt [5] 0) % U64MOD ∧
    exMapErr panicAsSpec (LSeq.find_new_id_depth LSeq.new [1] [2]) =
      LSeq.spec_find_new_id_depth LSeq.new [1] [2] :=
  ⟨by decide, by norm_num, by norm_num,
   find_new_id_depth_bitshift_single_label.1 LSeq.new [5] 0 3 (by decide),
   find_new_id_depth_bitshift_single_label.2 1 2 (by norm_num) (by norm_num)⟩
